import Mathlib

/-!
Verification development for the `release` tool (CalVer tag proposal over a
git repository). The definitions below are a shallow embedding of
`release.go` and of the contracts of its git collaborator (go-git), which the
code treats as a black box. Machine integers (`uint64`) are embedded as `Nat`
with explicit clamping / wraparound at `2 ^ 64` where the Go code can
overflow. Strings are embedded as Lean `String` (Go operates on UTF-8 bytes;
byte-wise lexicographic order coincides with the code-point order used here
for valid UTF-8).
-/

/-- Embeds `object.Signature` from go-git: name, email and a timestamp.
The timestamp (`When`, a `time.Time`) is embedded as an `Int` instant so that
`Equal` / `After` / `Before` become `=` / `>` / `<`. -/
structure Signature where
  Name : String
  Email : String
  When : Int
deriving DecidableEq, Repr

/-- Embeds the `Release` struct of `release.go`: one discovered tag together
with the metadata of the commit it points to. `Tagger` is `none` exactly for
lightweight tags (a nil pointer in Go). -/
structure Release where
  Tag : String
  Hash : String
  ReleaseMessage : String
  CommitMessage : String
  Author : Signature
  Committer : Signature
  Tagger : Option Signature
deriving DecidableEq, Repr

/-- Embeds `Release.Date`: `return r.Committer.When`. -/
def Release.Date (r : Release) : Int := r.Committer.When

/-- Embeds `Release.ReleasedBy`: the tagger if present, else the committer. -/
def Release.ReleasedBy (r : Release) : Signature :=
  match r.Tagger with
  | some t => t
  | none => r.Committer

/-- Index of the first occurrence of `needle` in `hay` (Go `strings.Index`,
at character granularity). -/
def subIndex : List Char → List Char → Option Nat
  | [], needle => if needle = [] then some 0 else none
  | c :: hay, needle =>
    if needle.isPrefixOf (c :: hay) then some 0 else (subIndex hay needle).map (· + 1)

/-- Helper for `goSplitN`, recursing on the remaining split budget `n`.
Go's `genSplit` collects `n - 1` prefixes delimited by `sep` and then the
remainder; with budget `1` the whole input is returned unsplit. -/
def goSplitNAux (sep : List Char) : List Char → Nat → List (List Char)
  | _, 0 => []
  | s, 1 => [s]
  | s, Nat.succ (Nat.succ n) =>
    match subIndex s sep with
    | none => [s]
    | some i => s.take i :: goSplitNAux sep (s.drop (i + sep.length)) (n + 1)

/-- Embeds Go `strings.SplitN s sep n` for `n ≥ 0`: `n = 0` yields the empty
list, and otherwise the result has at most `n` parts, the last one holding
the unsplit remainder. In particular `goSplitN s sep 1 = [s]`. -/
def goSplitN (s sep : String) (n : Nat) : List String :=
  (goSplitNAux sep.data s.data n).map String.mk

/-- Embeds `Release.Message`: the tag message when non-empty, otherwise
`strings.SplitN(r.CommitMessage, "\n", 1)[0]` (which, with split budget 1,
is the whole commit message). -/
def Release.Message (r : Release) : String :=
  if r.ReleaseMessage ≠ "" then r.ReleaseMessage
  else (goSplitN r.CommitMessage "\n" 1).headD ""

/-- Embeds `releaseList.Less i j`: when the committer dates are `Equal`, tags
are compared with `strings.Compare == -1` (lexicographic), otherwise
`Date(i).After(Date(j))`. -/
def releaseLess (a b : Release) : Bool :=
  if a.Date = b.Date then decide (a.Tag < b.Tag) else decide (b.Date < a.Date)

/-- Sorted insertion of one release with respect to `releaseLess`. -/
def insertRel (r : Release) : List Release → List Release
  | [] => [r]
  | x :: xs => if releaseLess x r then x :: insertRel r xs else r :: x :: xs

/-- Embeds the `sort.Sort(r.releases)` step of `loadGitTags`. `sort.Sort`
guarantees a permutation of the input that is sorted with respect to `Less`;
it is embedded as an insertion sort using the same comparator. -/
def sortReleases (l : List Release) : List Release := l.foldr insertRel []

/-- Decimal digit-string value (the matched groups are all ASCII digits). -/
def digitsVal (ds : List Char) : Nat := ds.foldl (fun a c => a * 10 + (c.toNat - 48)) 0

/-- Embeds `strconv.ParseUint(s, 10, 64)` on an all-digit string with the
returned error discarded, as in `getNextDateString`: on overflow `ParseUint`
returns `math.MaxUint64` together with `ErrRange`, so the ignored-error value
is the decimal value clamped to `2 ^ 64 - 1`. -/
def parseUint64 (ds : List Char) : Nat := min (digitsVal ds) (2 ^ 64 - 1)

/-- Embeds matching against
`pat = ^(?P<year>\d{4})\.(?P<month>\d{2})\.(?P<release>\d{3,})-.*$`
and extracting the three numeric groups as `ParseUint` does with ignored
errors. The regex is anchored at both ends, `\d` is ASCII `[0-9]`, `\d{3,}`
greedily takes the maximal digit run, and `.*$` (with `.` excluding newline
and `$` matching only end of text) requires the tail after `-` to be
newline-free. `pat.MatchString` is `(patCaptures s).isSome`. -/
def patCaptures (s : String) : Option (Nat × Nat × Nat) :=
  match s.data with
  | y1 :: y2 :: y3 :: y4 :: d1 :: m1 :: m2 :: d2 :: rest =>
    if y1.isDigit ∧ y2.isDigit ∧ y3.isDigit ∧ y4.isDigit ∧ d1 = '.' ∧
        m1.isDigit ∧ m2.isDigit ∧ d2 = '.' then
      match rest.dropWhile Char.isDigit with
      | '-' :: tail =>
        if 3 ≤ (rest.takeWhile Char.isDigit).length ∧ tail.all (fun c => c != '\n') then
          some (parseUint64 [y1, y2, y3, y4], parseUint64 [m1, m2],
            parseUint64 (rest.takeWhile Char.isDigit))
        else none
      | _ => none
    else none
  | _ => none

/-- Embeds the `calVerStandard` struct: all three fields are `uint64`. -/
structure calVerStandard where
  Year : Nat
  Month : Nat
  Release : Nat
deriving DecidableEq, Repr

/-- Embeds `newCalVerStandard`. -/
def newCalVerStandard (year month rel : Nat) : calVerStandard :=
  { Year := year, Month := month, Release := rel }

/-- Go `%0wd` formatting of a `uint64` value: the decimal digits, left-padded
with zeros to at least `w` characters. -/
def goPad (w : Nat) (n : Nat) : String :=
  String.mk (List.replicate (w - (Nat.repr n).length) '0') ++ Nat.repr n

/-- Embeds `calVerStandard.FormatRelease`:
`fmt.Sprintf("%d.%02d.%03d-%s", c.Year, c.Month, c.Release, release)`. -/
def calVerStandard.FormatRelease (c : calVerStandard) (release : String) : String :=
  Nat.repr c.Year ++ "." ++ goPad 2 c.Month ++ "." ++ goPad 3 c.Release ++ "-" ++ release

/-- Embeds `calVerStandard.IsAfter`:
`!(other.Year > c.Year || other.Month > c.Month || other.Release > c.Release)`. -/
def calVerStandard.IsAfter (c other : calVerStandard) : Bool :=
  !(decide (other.Year > c.Year) || decide (other.Month > c.Month) ||
    decide (other.Release > c.Release))

/-- Embeds `calVerStandard.IsSameMonth`:
`other.Year == c.Year && other.Month == c.Month`. -/
def calVerStandard.IsSameMonth (c other : calVerStandard) : Bool :=
  (other.Year == c.Year) && (other.Month == c.Month)

/-- Embeds `calVerStandard.Increase`: `c.Release++` on a `uint64`, which
wraps around at `2 ^ 64`. -/
def calVerStandard.Increase (c : calVerStandard) : calVerStandard :=
  { c with Release := (c.Release + 1) % 2 ^ 64 }

/-- One iteration of the `for _, release := range r.releases` loop body of
`getNextDateString`: tags not matching `pat` are ignored, matching tags in a
different year/month are skipped (`continue`), and a same-month tag replaces
`latest` when `rev.IsAfter(latest)`. -/
def calverStep (latest : calVerStandard) (release : Release) : calVerStandard :=
  match patCaptures release.Tag with
  | none => latest
  | some (year, month, relNum) =>
    let rev := newCalVerStandard year month relNum
    if rev.IsSameMonth latest then (if rev.IsAfter latest then rev else latest) else latest

/-- The loop of `getNextDateString`: fold the loop body over the release
index, starting from `newCalVerStandard(uint64(now.Year()), uint64(now.Month()), 0)`. -/
def latestCalVer (releases : List Release) (nowYear nowMonth : Nat) : calVerStandard :=
  releases.foldl calverStep (newCalVerStandard nowYear nowMonth 0)

/-- Embeds `Manager.getNextDateString` as a function of the release index and
of `now`'s calendar year and month (the only parts of `now` the code reads):
`latest.Increase().FormatRelease(name)` after the loop. -/
def getNextDateString (releases : List Release) (name : String) (nowYear nowMonth : Nat) : String :=
  ((latestCalVer releases nowYear nowMonth).Increase).FormatRelease name

/-- Embeds the `Manager` struct fields relevant to proposal computation; the
repository handles and directories are collaborator state that the proposal
logic never reads. -/
structure Manager where
  releases : List Release
  timeFmt : String
  incFmt : String
  AlwaysIncludeNumber : Bool

/-- Method form on the manager's release index; same body as the list-level
`getNextDateString` above. -/
def Manager.getNextDateString (r : Manager) (name : String) (nowYear nowMonth : Nat) : String :=
  ((latestCalVer r.releases nowYear nowMonth).Increase).FormatRelease name

/-- Embeds `Manager.GetProposedName`, with `time.Now()` supplied as the
current calendar year and month. -/
def Manager.GetProposedName (r : Manager) (name : String) (nowYear nowMonth : Nat) : String :=
  r.getNextDateString name nowYear nowMonth

/-- A manager as built by `NewManager` (with `cmd/release/main.go`'s formats)
whose `AlwaysIncludeNumber` field is then set to `b`. -/
def mkMgr (l : List Release) (b : Bool) : Manager :=
  { releases := l, timeFmt := "%Y.%m.", incFmt := "%03d", AlwaysIncludeNumber := b }

/-- A release record carrying only a tag string, for proposal-side facts that
read nothing but `Tag`. -/
def mkTagOnly (t : String) : Release :=
  { Tag := t, Hash := "", ReleaseMessage := "", CommitMessage := "",
    Author := { Name := "", Email := "", When := 0 },
    Committer := { Name := "", Email := "", When := 0 }, Tagger := none }

/-- Spec-side notion for the collision claim: Go `strings.Contains` — the
spec's "any existing tag contains the candidate as a substring". -/
def goContains (s sub : String) : Bool := (subIndex s.data sub.data).isSome

/-- Embeds a resolved commit object (go-git `object.Commit`): identifier,
message, author and committer signatures. -/
structure GoCommit where
  id : String
  message : String
  author : Signature
  committer : Signature
deriving DecidableEq, Repr

/-- Embeds a resolved annotated-tag object (go-git `object.Tag`), with its
`Commit()` dereference result: `none` when the target commit cannot be
loaded. -/
structure GoTagObj where
  name : String
  message : String
  tagger : Signature
  commit : Option GoCommit
deriving DecidableEq, Repr

/-- One tag reference as enumerated by `repo.Tags()`, together with the
outcomes of the two resolutions `loadGitTags` attempts on its hash:
`repo.CommitObject` (lightweight path) and `repo.TagObject` (annotated
path); `none` means the call returned an error. -/
structure GoTagRef where
  name : String
  commit : Option GoCommit
  tagObj : Option GoTagObj
deriving DecidableEq, Repr

/-- The `tagrefs.ForEach` body of `loadGitTags`, folded over the enumerated
references. For each reference: if `CommitObject` succeeds the tag is
recorded as lightweight (tag name is the reference name with the 10-byte
`refs/tags/` stripped); otherwise `TagObject` is called with its error
DISCARDED (`tag, _ :=`), so when it also fails the subsequent `tag.Name`
field access dereferences a nil pointer and the whole load panics — embedded
as `none`. When the tag object resolves but `tag.Commit()` errors, the tag
is logged and skipped and the fold continues. -/
def loadTagsAux : List GoTagRef → Option (List Release)
  | [] => some []
  | t :: ts =>
    match t.commit with
    | some obj =>
      (loadTagsAux ts).map (fun l =>
        { Tag := t.name.drop 10, Hash := obj.id, ReleaseMessage := "",
          CommitMessage := obj.message, Author := obj.author,
          Committer := obj.committer, Tagger := none } :: l)
    | none =>
      match t.tagObj with
      | none => none
      | some tg =>
        match tg.commit with
        | none => loadTagsAux ts
        | some obj =>
          (loadTagsAux ts).map (fun l =>
            { Tag := tg.name, Hash := obj.id, ReleaseMessage := tg.message,
              CommitMessage := obj.message, Author := obj.author,
              Committer := obj.committer, Tagger := some tg.tagger } :: l)

/-- Embeds `Manager.loadGitTags` as a function of the enumerated tag
references: build the records, then sort them (`sort.Sort(r.releases)`).
`none` is the panic outcome described at `loadTagsAux`. -/
def loadGitTags (refs : List GoTagRef) : Option (List Release) :=
  (loadTagsAux refs).map sortReleases

/-- The error outcome of `repo.Push`: go-git's sentinel
`git.NoErrAlreadyUpToDate` or any other error. -/
inductive GoPushErr where
  | alreadyUpToDate
  | other (msg : String)
deriving DecidableEq, Repr

/-- Embeds `tagToRefspec`:
`fmt.Sprintf("refs/tags/%s:refs/tags/%s", tag, tag)`. -/
def tagToRefspec (tag : String) : String :=
  "refs/tags/" ++ tag ++ ":refs/tags/" ++ tag

/-- Embeds `Manager.PushTagToRemote`. The repository collaborator's
`repo.Push` is abstracted as `push`, a function from the single refspec the
options carry to an optional error (`none` = successful push). -/
def PushTagToRemote (push : String → Option GoPushErr) (tag remote : String) :
    String × Option GoPushErr :=
  match push (tagToRefspec tag) with
  | some GoPushErr.alreadyUpToDate =>
    ("nothing pushed, tag " ++ tag ++ " already existed and was up to date in remote "
      ++ remote, none)
  | some (GoPushErr.other e) =>
    ("failed to push tag " ++ tag ++ " to remote " ++ remote, some (GoPushErr.other e))
  | none => ("pushed tag " ++ tag ++ " to remote " ++ remote, none)

/-- Embeds go-git `git.CreateTagOptions`: annotation message and tagger. -/
structure CreateTagOptions where
  Message : String
  Tagger : Signature
deriving DecidableEq, Repr

/-- Outcome of `Manager.CreateTag`: HEAD unresolvable, the `log.Fatal` exit
on missing identity, the collaborator's `ErrTagExists`, or the created
reference (hash plus the options that determine lightweight vs annotated). -/
inductive CreateTagResult where
  | headErr
  | fatalIdentity
  | errTagExists
  | created (hash : String) (opts : Option CreateTagOptions)
deriving DecidableEq, Repr

/-- The repository collaborator's `repo.CreateTag(name, hash, opts)` per its
contract (spec §6 / go-git): fails with `ErrTagExists` when the tag name is
already present, otherwise creates the tag — annotated exactly when `opts`
is supplied. -/
def repoCreateTag (existing : List String) (name hash : String)
    (opts : Option CreateTagOptions) : CreateTagResult :=
  if name ∈ existing then CreateTagResult.errTagExists
  else CreateTagResult.created hash opts

/-- Embeds `Manager.CreateTag`: resolve HEAD (propagating its error), then —
only when a comment was supplied — require user and email (`log.Fatal`
otherwise) and build annotated-tag options with `When := now`
(`time.Now()`), and finally call the collaborator's `CreateTag`. -/
def CreateTag (head : Option String) (existing : List String) (now : Int)
    (name comment user email : String) : CreateTagResult :=
  match head with
  | none => CreateTagResult.headErr
  | some hash =>
    if comment ≠ "" then
      if user = "" ∨ email = "" then CreateTagResult.fatalIdentity
      else repoCreateTag existing name hash
        (some { Message := comment, Tagger := { Name := user, Email := email, When := now } })
    else repoCreateTag existing name hash none

/-- Statement-side predicate: the tag matches `pat` with the given year and
month (used to state month-scoping facts decidably). -/
def matchesMonth (y m : Nat) (r : Release) : Bool :=
  match patCaptures r.Tag with
  | none => false
  | some (yy, mm, _) => yy == y && mm == m

/-- Statement-side predicate: the record does not carry an ordinal at the
`uint64` saturation boundary for the given year/month — the no-wraparound
side condition under which the max-plus-one step cannot overflow. -/
def sameMonthSafe (y m : Nat) (r : Release) : Bool :=
  match patCaptures r.Tag with
  | none => true
  | some (yy, mm, rel) => !(yy == y && mm == m) || decide (rel < 2 ^ 64 - 1)

/-- Statement-side order: `a` may precede `b` in a `Less`-sorted list, i.e.
`b` is not strictly before `a`. -/
def LeP (a b : Release) : Prop := releaseLess b a = false

/-- Fixture signature for concrete instances, committer timestamp 5. -/
def sigW1 : Signature := { Name := "alice", Email := "a@x", When := 5 }

/-- Fixture signature for concrete instances, committer timestamp 9. -/
def sigW2 : Signature := { Name := "bob", Email := "b@x", When := 9 }

/-- Fixture commit pointed to by `sigW1`-dated tags. -/
def commitW1 : GoCommit := { id := "c1", message := "m1", author := sigW1, committer := sigW1 }

/-- Fixture commit pointed to by `sigW2`-dated tags. -/
def commitW2 : GoCommit := { id := "c2", message := "m2", author := sigW2, committer := sigW2 }

/-- Two lightweight tag references with distinct committer dates. -/
def refsW : List GoTagRef :=
  [{ name := "refs/tags/b", commit := some commitW1, tagObj := none },
   { name := "refs/tags/a", commit := some commitW2, tagObj := none }]

/-- A lightweight record whose commit message has two lines and whose tag
message is empty. -/
def relTwoLineCommit : Release :=
  { Tag := "2020.07.004-release", Hash := "h", ReleaseMessage := "",
    CommitMessage := "line1\nline2", Author := sigW1, Committer := sigW1, Tagger := none }

/-- A record with a non-empty tag message. -/
def relWithNote : Release :=
  { Tag := "t", Hash := "h", ReleaseMessage := "note",
    CommitMessage := "c1\nc2", Author := sigW1, Committer := sigW1, Tagger := none }

/-- A reference that resolves as an annotated tag object whose target commit
is missing. -/
def badAnnRefW : GoTagRef :=
  { name := "refs/tags/ann", commit := none,
    tagObj := some { name := "ann", message := "msg", tagger := sigW1, commit := none } }

/-- A reference that resolves directly to a commit (lightweight tag). -/
def goodRefW : GoTagRef := { name := "refs/tags/good", commit := some commitW1, tagObj := none }

theorem calverStep_Year_Month (acc : calVerStandard) (r : Release) :
    (calverStep acc r).Year = acc.Year ∧ (calverStep acc r).Month = acc.Month := by
  unfold calverStep
  split
  · exact ⟨rfl, rfl⟩
  · next y m rel heq =>
    simp only [newCalVerStandard, calVerStandard.IsSameMonth, calVerStandard.IsAfter]
    split
    · next hsm =>
      simp only [Bool.and_eq_true, beq_iff_eq] at hsm
      split
      · exact ⟨hsm.1.symm, hsm.2.symm⟩
      · exact ⟨rfl, rfl⟩
    · exact ⟨rfl, rfl⟩

theorem calverStep_Release_ge (acc : calVerStandard) (r : Release) :
    acc.Release ≤ (calverStep acc r).Release := by
  unfold calverStep
  split
  · exact le_refl _
  · next y m rel heq =>
    simp only [newCalVerStandard, calVerStandard.IsSameMonth, calVerStandard.IsAfter]
    split
    · split
      · next hafter =>
        simp only [Bool.not_eq_true', Bool.or_eq_false_iff, decide_eq_false_iff_not,
          not_lt] at hafter
        exact hafter.2
      · exact le_refl _
    · exact le_refl _

theorem calverStep_skip_unmatched (acc : calVerStandard) (r : Release)
    (h : patCaptures r.Tag = none) : calverStep acc r = acc := by
  unfold calverStep
  rw [h]

theorem calverStep_skip_other_month (acc : calVerStandard) (r : Release)
    (y2 m2 rel : Nat) (hcap : patCaptures r.Tag = some (y2, m2, rel))
    (hne : ¬(y2 = acc.Year ∧ m2 = acc.Month)) : calverStep acc r = acc := by
  unfold calverStep
  rw [hcap]
  simp only [newCalVerStandard, calVerStandard.IsSameMonth]
  rw [if_neg]
  simp only [Bool.and_eq_true, beq_iff_eq]
  intro hc
  exact hne ⟨hc.1.symm, hc.2.symm⟩

theorem calverStep_mem (acc : calVerStandard) (r : Release) :
    (calverStep acc r).Release = acc.Release ∨
      patCaptures r.Tag = some (acc.Year, acc.Month, (calverStep acc r).Release) := by
  unfold calverStep
  split
  · exact Or.inl rfl
  · next y m rel heq =>
    simp only [newCalVerStandard, calVerStandard.IsSameMonth, calVerStandard.IsAfter]
    split
    · next hsm =>
      simp only [Bool.and_eq_true, beq_iff_eq] at hsm
      split
      · exact Or.inr (by rw [hsm.1, hsm.2]; exact heq)
      · exact Or.inl rfl
    · exact Or.inl rfl

theorem calverStep_cover (acc : calVerStandard) (r : Release) (rel : Nat)
    (hcap : patCaptures r.Tag = some (acc.Year, acc.Month, rel)) :
    rel ≤ (calverStep acc r).Release := by
  unfold calverStep
  rw [hcap]
  simp only [newCalVerStandard, calVerStandard.IsSameMonth, calVerStandard.IsAfter]
  rw [if_pos (by simp)]
  split
  · exact le_refl _
  · next hafter =>
    simp only [Bool.not_eq_true', Bool.or_eq_false_iff, decide_eq_false_iff_not,
      not_lt, Bool.not_eq_false, Bool.or_eq_true, decide_eq_true_eq] at hafter
    have h3 : ¬ (acc.Release ≤ rel) := fun hle => hafter ⟨⟨le_refl _, le_refl _⟩, hle⟩
    exact le_of_lt (not_le.mp h3)

theorem latestFold_Year_Month (L : List Release) (acc : calVerStandard) :
    (L.foldl calverStep acc).Year = acc.Year ∧ (L.foldl calverStep acc).Month = acc.Month := by
  induction L generalizing acc with
  | nil => exact ⟨rfl, rfl⟩
  | cons x t ih =>
    simp only [List.foldl_cons]
    obtain ⟨hy, hm⟩ := ih (calverStep acc x)
    obtain ⟨hy', hm'⟩ := calverStep_Year_Month acc x
    exact ⟨hy.trans hy', hm.trans hm'⟩

theorem latestFold_Release_ge (L : List Release) (acc : calVerStandard) :
    acc.Release ≤ (L.foldl calverStep acc).Release := by
  induction L generalizing acc with
  | nil => exact le_refl _
  | cons x t ih =>
    simp only [List.foldl_cons]
    exact le_trans (calverStep_Release_ge acc x) (ih (calverStep acc x))

theorem latestFold_cover (L : List Release) (acc : calVerStandard) :
    ∀ r ∈ L, ∀ rel, patCaptures r.Tag = some (acc.Year, acc.Month, rel) →
      rel ≤ (L.foldl calverStep acc).Release := by
  induction L generalizing acc with
  | nil => intro r hr; exact absurd hr (List.not_mem_nil r)
  | cons x t ih =>
    intro r hr rel hcap
    simp only [List.foldl_cons]
    rcases List.mem_cons.mp hr with h | h
    · subst h
      exact le_trans (calverStep_cover acc r rel hcap)
        (latestFold_Release_ge t (calverStep acc r))
    · obtain ⟨hy, hm⟩ := calverStep_Year_Month acc x
      exact ih (calverStep acc x) r h rel (by rw [hy, hm]; exact hcap)

theorem latestFold_mem (L : List Release) (acc : calVerStandard) :
    (L.foldl calverStep acc).Release = acc.Release ∨
      ∃ r ∈ L, patCaptures r.Tag
        = some (acc.Year, acc.Month, (L.foldl calverStep acc).Release) := by
  induction L generalizing acc with
  | nil => exact Or.inl rfl
  | cons x t ih =>
    simp only [List.foldl_cons]
    rcases ih (calverStep acc x) with h | ⟨r, hr, hcap⟩
    · rcases calverStep_mem acc x with h2 | h2
      · exact Or.inl (h.trans h2)
      · exact Or.inr ⟨x, List.mem_cons_self x t, by rw [h]; exact h2⟩
    · obtain ⟨hy, hm⟩ := calverStep_Year_Month acc x
      refine Or.inr ⟨r, List.mem_cons_of_mem x hr, ?_⟩
      rw [hy, hm] at hcap
      exact hcap

theorem latestFold_insert_skip (xs ys : List Release) (r : Release) (acc : calVerStandard)
    (hstep : ∀ a : calVerStandard, a.Year = acc.Year → a.Month = acc.Month →
      calverStep a r = a) :
    List.foldl calverStep acc (xs ++ r :: ys) = List.foldl calverStep acc (xs ++ ys) := by
  rw [List.foldl_append, List.foldl_append, List.foldl_cons]
  obtain ⟨hy, hm⟩ := latestFold_Year_Month xs acc
  rw [hstep _ hy hm]

theorem latestFold_no_month (L : List Release) (acc : calVerStandard)
    (h : ∀ r ∈ L, ∀ rel, patCaptures r.Tag ≠ some (acc.Year, acc.Month, rel)) :
    L.foldl calverStep acc = acc := by
  induction L with
  | nil => rfl
  | cons x t ih =>
    simp only [List.foldl_cons]
    have hx : calverStep acc x = acc := by
      cases hc : patCaptures x.Tag with
      | none => exact calverStep_skip_unmatched acc x hc
      | some cap =>
        obtain ⟨y2, m2, rel⟩ := cap
        refine calverStep_skip_other_month acc x y2 m2 rel hc ?_
        rintro ⟨rfl, rfl⟩
        exact h x (List.mem_cons_self x t) rel hc
    rw [hx]
    exact ih (fun r hr => h r (List.mem_cons_of_mem x hr))

theorem matchesMonth_eq_false (y m : Nat) (r : Release) (h : matchesMonth y m r = false) :
    ∀ rel, patCaptures r.Tag ≠ some (y, m, rel) := by
  intro rel hcap
  unfold matchesMonth at h
  rw [hcap] at h
  simp at h

theorem latestRelease_lt_of_safe (L : List Release) (y m : Nat)
    (H : L.all (sameMonthSafe y m) = true) :
    (latestCalVer L y m).Release < 2 ^ 64 - 1 := by
  rcases latestFold_mem L (newCalVerStandard y m 0) with h | ⟨r2, hr2, hcap2⟩
  · unfold latestCalVer
    rw [h]
    norm_num [newCalVerStandard]
  · have hs := List.all_eq_true.mp H r2 hr2
    unfold sameMonthSafe at hs
    rw [hcap2] at hs
    simp only [newCalVerStandard, beq_self_eq_true, Bool.and_self, Bool.not_true,
      Bool.false_or, decide_eq_true_eq] at hs
    unfold latestCalVer
    exact hs

theorem goPad_length (w n : Nat) : w ≤ (goPad w n).length := by
  unfold goPad
  rw [String.length_append]
  have h1 : (String.mk (List.replicate (w - (Nat.repr n).length) '0')).length
      = w - (Nat.repr n).length := by
    show (List.replicate (w - (Nat.repr n).length) '0').length = w - (Nat.repr n).length
    exact List.length_replicate _ _
  rw [h1]
  omega

theorem releaseLess_true_iff (a b : Release) :
    releaseLess a b = true ↔ b.Date < a.Date ∨ (a.Date = b.Date ∧ a.Tag < b.Tag) := by
  unfold releaseLess
  split
  · next h =>
    simp [h, lt_irrefl]
  · next h =>
    simp [h]

theorem releaseLess_false_iff (a b : Release) :
    releaseLess a b = false ↔ ¬(b.Date < a.Date ∨ (a.Date = b.Date ∧ a.Tag < b.Tag)) := by
  rw [← releaseLess_true_iff, Bool.not_eq_true]

theorem releaseLess_asymm (a b : Release) (h : releaseLess a b = true) :
    releaseLess b a = false := by
  rw [releaseLess_true_iff] at h
  rw [releaseLess_false_iff]
  rintro (h2 | ⟨e2, t2⟩)
  · rcases h with h1 | ⟨e1, _⟩
    · exact absurd (lt_trans h1 h2) (lt_irrefl _)
    · rw [e1] at h2
      exact absurd h2 (lt_irrefl _)
  · rcases h with h1 | ⟨e1, t1⟩
    · rw [e2] at h1
      exact absurd h1 (lt_irrefl _)
    · exact absurd (lt_trans t1 t2) (lt_irrefl _)

theorem LeP_iff (a b : Release) :
    LeP a b ↔ b.Date < a.Date ∨ (a.Date = b.Date ∧ ¬ b.Tag < a.Tag) := by
  unfold LeP
  rw [releaseLess_false_iff]
  constructor
  · intro h
    rcases lt_trichotomy a.Date b.Date with hlt | heq | hgt
    · exact absurd (Or.inl hlt) h
    · exact Or.inr ⟨heq, fun htag => h (Or.inr ⟨heq.symm, htag⟩)⟩
    · exact Or.inl hgt
  · rintro (hgt | ⟨heq, htag⟩)
    · rintro (hlt | ⟨heq, _⟩)
      · exact absurd (lt_trans hlt hgt) (lt_irrefl _)
      · rw [heq] at hgt
        exact absurd hgt (lt_irrefl _)
    · rintro (hlt | ⟨heq2, htag2⟩)
      · rw [heq] at hlt
        exact absurd hlt (lt_irrefl _)
      · exact htag htag2

theorem LeP_total (a b : Release) : LeP a b ∨ LeP b a := by
  rw [LeP_iff, LeP_iff]
  rcases lt_trichotomy a.Date b.Date with hlt | heq | hgt
  · exact Or.inr (Or.inl hlt)
  · rcases lt_trichotomy a.Tag b.Tag with tlt | teq | tgt
    · exact Or.inl (Or.inr ⟨heq, fun h => absurd (lt_trans h tlt) (lt_irrefl _)⟩)
    · exact Or.inl (Or.inr ⟨heq, fun h => by rw [teq] at h; exact absurd h (lt_irrefl _)⟩)
    · exact Or.inr (Or.inr ⟨heq.symm, fun h => absurd (lt_trans h tgt) (lt_irrefl _)⟩)
  · exact Or.inl (Or.inl hgt)

theorem LeP_trans (a b c : Release) : LeP a b → LeP b c → LeP a c := by
  rw [LeP_iff, LeP_iff, LeP_iff]
  rintro (h1 | ⟨e1, t1⟩) (h2 | ⟨e2, t2⟩)
  · exact Or.inl (lt_trans h2 h1)
  · exact Or.inl (e2 ▸ h1)
  · rw [e1]
    exact Or.inl h2
  · refine Or.inr ⟨e1.trans e2, fun h => ?_⟩
    rcases lt_trichotomy b.Tag c.Tag with tlt | teq | tgt
    · exact t1 (lt_trans tlt h)
    · exact t1 (by rw [teq]; exact h)
    · exact t2 tgt

theorem mem_insertRel (r : Release) (l : List Release) :
    ∀ z ∈ insertRel r l, z = r ∨ z ∈ l := by
  induction l with
  | nil =>
    intro z hz
    simp only [insertRel] at hz
    exact Or.inl (List.mem_singleton.mp hz)
  | cons x xs ih =>
    intro z hz
    simp only [insertRel] at hz
    split at hz
    · rcases List.mem_cons.mp hz with h | h
      · exact Or.inr (h ▸ List.mem_cons_self x xs)
      · rcases ih z h with h2 | h2
        · exact Or.inl h2
        · exact Or.inr (List.mem_cons_of_mem x h2)
    · rcases List.mem_cons.mp hz with h | h
      · exact Or.inl h
      · exact Or.inr h

theorem pairwise_insertRel (r : Release) (l : List Release) (h : l.Pairwise LeP) :
    (insertRel r l).Pairwise LeP := by
  induction l with
  | nil =>
    simp [insertRel]
  | cons x xs ih =>
    simp only [insertRel]
    rcases List.pairwise_cons.mp h with ⟨hx, hxs⟩
    split
    · next hless =>
      refine List.pairwise_cons.mpr ⟨?_, ih hxs⟩
      intro z hz
      rcases mem_insertRel r xs z hz with rfl | h2
      · exact releaseLess_asymm x z hless
      · exact hx z h2
    · next hless =>
      have hrx : LeP r x := Bool.eq_false_iff.mpr hless
      refine List.pairwise_cons.mpr ⟨?_, h⟩
      intro z hz
      rcases List.mem_cons.mp hz with rfl | h2
      · exact hrx
      · exact LeP_trans r x z hrx (hx z h2)

theorem perm_insertRel (r : Release) (l : List Release) :
    List.Perm (insertRel r l) (r :: l) := by
  induction l with
  | nil => rfl
  | cons x xs ih =>
    simp only [insertRel]
    split
    · exact ((ih.cons x).trans (List.Perm.swap r x xs))
    · rfl

theorem pairwise_sortReleases (l : List Release) : (sortReleases l).Pairwise LeP := by
  induction l with
  | nil => exact List.Pairwise.nil
  | cons x xs ih => exact pairwise_insertRel x (sortReleases xs) ih

theorem perm_sortReleases (l : List Release) : List.Perm (sortReleases l) l := by
  induction l with
  | nil => rfl
  | cons x xs ih => exact (perm_insertRel x (sortReleases xs)).trans (ih.cons x)

theorem loadTagsAux_skip (xs ys : List GoTagRef) (t : GoTagRef) (tg : GoTagObj)
    (ht : t.commit = none) (htg : t.tagObj = some tg) (htgc : tg.commit = none) :
    loadTagsAux (xs ++ t :: ys) = loadTagsAux (xs ++ ys) := by
  induction xs with
  | nil =>
    show loadTagsAux (t :: ys) = loadTagsAux ys
    unfold loadTagsAux
    simp only [ht, htg, htgc]
    cases ys <;> rfl
  | cons x xs ih =>
    show loadTagsAux (x :: (xs ++ t :: ys)) = loadTagsAux (x :: (xs ++ ys))
    unfold loadTagsAux
    cases hx : x.commit with
    | some obj => simp only [ih]
    | none =>
      cases hxt : x.tagObj with
      | none => rfl
      | some tg2 =>
        cases hxtc : tg2.commit with
        | none => simp only [ih]
        | some obj2 => simp only [ih]

/-- Claim C1, counterexample. The code does not use substring containment:
with an existing tag `2020.07.001` — which contains the candidate
`2020.07.001` as a substring (they are equal) — the July 2020 proposal for
component `release` still uses exactly that date/ordinal candidate, because
the tag does not match the anchored pattern (no `-suffix`) and is therefore
ignored rather than treated as taking the candidate. -/
theorem substring_candidate_still_proposed :
    goContains "2020.07.001" "2020.07.001" = true ∧
    getNextDateString [mkTagOnly "2020.07.001"] "release" 2020 7 = "2020.07.001-release" ∧
    "2020.07.001-release" = "2020.07.001" ++ "-" ++ "release" := by
  refine ⟨by decide, by decide, by decide⟩

/-- Claim C1, amended. Collision avoidance never inspects substrings: a tag
that fails the anchored pattern `^\d{4}\.\d{2}\.\d{3,}-.*$` has no influence
at all on the proposal, wherever it sits in the index; and for an index
containing `2020.07.010-release` the July 2020 proposal is
`2020.07.011-release` (one past the maximal matching same-month ordinal —
shorter candidates such as `2020.07.01` are never generated because ordinals
are always rendered with at least three digits). -/
theorem proposal_ignores_unmatched_tags :
    (∀ (L1 L2 : List Release) (r : Release) (name : String) (y m : Nat),
        patCaptures r.Tag = none →
        getNextDateString (L1 ++ r :: L2) name y m = getNextDateString (L1 ++ L2) name y m)
    ∧ getNextDateString [mkTagOnly "2020.07.010-release"] "release" 2020 7
        = "2020.07.011-release" := by
  constructor
  · intro L1 L2 r name y m hcap
    unfold getNextDateString latestCalVer
    rw [latestFold_insert_skip L1 L2 r (newCalVerStandard y m 0)]
    intro a _ _
    exact calverStep_skip_unmatched a r hcap
  · decide

/-- Witness for the C1 amended theorem at a concrete input: the non-matching
tag `2020.07.001` is ignored by the proposal. -/
theorem proposal_ignores_unmatched_tags_w :
    getNextDateString [mkTagOnly "2020.07.001"] "x" 2020 7
      = getNextDateString [] "x" 2020 7 :=
  proposal_ignores_unmatched_tags.1 [] [] (mkTagOnly "2020.07.001") "x" 2020 7 (by decide)

/-- Claim C2, counterexample. With an existing July 2020 tag carrying the
20-digit ordinal `18446744073709551615` (= `2 ^ 64 - 1`), `Release++` wraps
the `uint64` to `0`: the proposal is `2020.07.000-x`, whose ordinal is not
strictly greater than the existing same-month ordinal. -/
theorem proposal_ordinal_wraps_at_uint64_max :
    patCaptures "2020.07.18446744073709551615-x" = some (2020, 7, 2 ^ 64 - 1) ∧
    getNextDateString [mkTagOnly "2020.07.18446744073709551615-x"] "x" 2020 7
      = "2020.07.000-x" ∧
    ¬ (2 ^ 64 - 1 <
        ((latestCalVer [mkTagOnly "2020.07.18446744073709551615-x"] 2020 7).Increase).Release) := by
  refine ⟨by decide, by decide, by decide⟩

/-- Claim C2 (amended): for every release index, component name and current
year/month, provided no tag of the index carries a same-month ordinal at the
`uint64` saturation bound `2 ^ 64 - 1` or beyond, the proposed tag is the
formatted successor ordinal and that ordinal is strictly greater than the
ordinal of every tag in the index matching the pattern in the same calendar
year and month. -/
theorem proposal_ordinal_strictly_greater (L : List Release) (name : String)
    (y m : Nat) (H : L.all (sameMonthSafe y m) = true) :
    getNextDateString L name y m
        = ((latestCalVer L y m).Increase).FormatRelease name ∧
    ∀ r ∈ L, ∀ rel, patCaptures r.Tag = some (y, m, rel) →
      rel < ((latestCalVer L y m).Increase).Release := by
  constructor
  · rfl
  · intro r hr rel hcap
    have hcover := latestFold_cover L (newCalVerStandard y m 0) r hr rel hcap
    have hFlt := latestRelease_lt_of_safe L y m H
    have hinc : (latestCalVer L y m).Increase.Release = (latestCalVer L y m).Release + 1 := by
      unfold calVerStandard.Increase
      exact Nat.mod_eq_of_lt (by omega)
    rw [hinc]
    unfold latestCalVer at hcover ⊢
    omega

/-- Witness for C2 at a concrete input: with `2020.07.003-release` in the
index, the July 2020 proposal ordinal is greater than 3. -/
theorem proposal_ordinal_strictly_greater_w :
    [mkTagOnly "2020.07.003-release"].all (sameMonthSafe 2020 7) = true ∧
    3 < ((latestCalVer [mkTagOnly "2020.07.003-release"] 2020 7).Increase).Release :=
  ⟨by decide,
    (proposal_ordinal_strictly_greater [mkTagOnly "2020.07.003-release"] "release" 2020 7
      (by decide)).2 (mkTagOnly "2020.07.003-release") (List.mem_cons_self _ _) 3 (by decide)⟩

/-- Claim C3: tags whose pattern-match year/month differ from the proposal's
never influence the proposed name (removing such a tag from anywhere in the
index leaves the proposal unchanged); with no tag matching July 2020 in the
index the first July 2020 proposal is `2020.07.001-<name>` for either value
of `AlwaysIncludeNumber`; and in particular an existing `2020.06.005-release`
has no effect on the July 2020 proposal. -/
theorem proposal_month_scoping :
    (∀ (L1 L2 : List Release) (r : Release) (name : String) (y m y2 m2 rel : Nat),
        patCaptures r.Tag = some (y2, m2, rel) → ¬(y2 = y ∧ m2 = m) →
        getNextDateString (L1 ++ r :: L2) name y m = getNextDateString (L1 ++ L2) name y m)
    ∧ (∀ (L : List Release) (name : String) (b : Bool),
        L.all (fun r => !matchesMonth 2020 7 r) = true →
        (mkMgr L b).GetProposedName name 2020 7 = "2020.07.001-" ++ name)
    ∧ (∀ (name : String),
        getNextDateString [mkTagOnly "2020.06.005-release"] name 2020 7
          = getNextDateString [] name 2020 7) := by
  refine ⟨?_, ?_, ?_⟩
  · intro L1 L2 r name y m y2 m2 rel hcap hne
    unfold getNextDateString latestCalVer
    rw [latestFold_insert_skip L1 L2 r (newCalVerStandard y m 0)]
    intro a hy hm
    refine calverStep_skip_other_month a r y2 m2 rel hcap ?_
    rw [hy, hm]
    exact fun hc => hne ⟨hc.1, hc.2⟩
  · intro L name b hall
    have hfold : L.foldl calverStep (newCalVerStandard 2020 7 0)
        = newCalVerStandard 2020 7 0 := by
      refine latestFold_no_month L (newCalVerStandard 2020 7 0) ?_
      intro r hr rel
      have h := List.all_eq_true.mp hall r hr
      simp only [Bool.not_eq_true'] at h
      exact matchesMonth_eq_false 2020 7 r h rel
    show ((latestCalVer L 2020 7).Increase).FormatRelease name = "2020.07.001-" ++ name
    unfold latestCalVer
    rw [hfold]
    rfl
  · intro name
    rfl

/-- Witness for C3 at concrete inputs: `2020.06.005-release` does not change
the July 2020 proposal, and the first July proposal for component `release`
with `AlwaysIncludeNumber = true` is `2020.07.001-release`. -/
theorem proposal_month_scoping_w :
    getNextDateString [mkTagOnly "2020.06.005-release"] "release" 2020 7
      = getNextDateString [] "release" 2020 7 ∧
    (mkMgr [mkTagOnly "2020.06.005-release"] true).GetProposedName "release" 2020 7
      = "2020.07.001-release" :=
  ⟨proposal_month_scoping.1 [] [] (mkTagOnly "2020.06.005-release") "release" 2020 7 2020 6 5
      (by decide) (by decide),
    proposal_month_scoping.2.1 [mkTagOnly "2020.06.005-release"] "release" true (by decide)⟩

/-- Claim C4, counterexample. The code performs no hyphen normalization:
an empty component name yields `2020.07.001-` (trailing hyphen, not the bare
candidate), and a name already starting with a hyphen yields the double
hyphen `2020.07.001--ui` rather than `2020.07.001-ui`. -/
theorem component_suffix_not_normalized_cex :
    getNextDateString [] "" 2020 7 = "2020.07.001-" ∧
    getNextDateString [] "" 2020 7 ≠ "2020.07.001" ∧
    getNextDateString [] "-ui" 2020 7 = "2020.07.001--ui" ∧
    getNextDateString [] "-ui" 2020 7 ≠ "2020.07.001-ui" := by
  refine ⟨by decide, by decide, by decide, by decide⟩

/-- Claim C4 (amended): `FormatRelease` always emits the hyphen and then the
component name verbatim — the proposed tag is the date/ordinal candidate for
the empty component (which ends in the hyphen) with the name appended
unchanged, with no hyphen prepending or deduplication. -/
theorem component_appended_verbatim :
    (∀ (c : calVerStandard) (name : String),
        c.FormatRelease name = c.FormatRelease "" ++ name)
    ∧ (∀ (L : List Release) (name : String) (y m : Nat),
        getNextDateString L name y m = getNextDateString L "" y m ++ name) := by
  have h : ∀ (c : calVerStandard) (name : String),
      c.FormatRelease name = c.FormatRelease "" ++ name := by
    intro c name
    unfold calVerStandard.FormatRelease
    apply String.ext
    simp [String.data_append, List.append_assoc]
  exact ⟨h, fun L name y m => h ((latestCalVer L y m).Increase) name⟩

/-- Claim C5: any successfully loaded index is sorted with primary key
effective date descending and ties broken by tag string ascending (and is a
permutation of the records built from the references); and the effective
date of a record is its committer timestamp, unaffected by the tagger
signature even when one is present. -/
theorem index_sorted_date_desc_tag_asc :
    (∀ (refs : List GoTagRef) (l : List Release), loadGitTags refs = some l →
      l.Pairwise (fun a b => b.Date < a.Date ∨ (a.Date = b.Date ∧ ¬ b.Tag < a.Tag)) ∧
      ∃ raw, loadTagsAux refs = some raw ∧ List.Perm l raw)
    ∧ (∀ r : Release, r.Date = r.Committer.When)
    ∧ (∀ (r : Release) (sig : Signature),
        ({ r with Tagger := some sig } : Release).Date = r.Date) := by
  refine ⟨?_, fun r => rfl, fun r sig => rfl⟩
  intro refs l hload
  unfold loadGitTags at hload
  rcases Option.map_eq_some'.mp hload with ⟨raw, hraw, rfl⟩
  refine ⟨?_, raw, hraw, perm_sortReleases raw⟩
  refine (pairwise_sortReleases raw).imp ?_
  intro a b hab
  exact (LeP_iff a b).mp hab

/-- Witness for C5: loading two lightweight tags with committer dates 5 and 9
yields the records ordered date-descending, and the order is `Pairwise`
date-descending with tag tie-break. -/
theorem index_sorted_date_desc_tag_asc_w :
    loadGitTags refsW = some
      [{ Tag := "a", Hash := "c2", ReleaseMessage := "", CommitMessage := "m2",
         Author := sigW2, Committer := sigW2, Tagger := none },
       { Tag := "b", Hash := "c1", ReleaseMessage := "", CommitMessage := "m1",
         Author := sigW1, Committer := sigW1, Tagger := none }] ∧
    List.Pairwise (fun a b : Release => b.Date < a.Date ∨ (a.Date = b.Date ∧ ¬ b.Tag < a.Tag))
      [{ Tag := "a", Hash := "c2", ReleaseMessage := "", CommitMessage := "m2",
         Author := sigW2, Committer := sigW2, Tagger := none },
       { Tag := "b", Hash := "c1", ReleaseMessage := "", CommitMessage := "m1",
         Author := sigW1, Committer := sigW1, Tagger := none }] :=
  ⟨rfl, (index_sorted_date_desc_tag_asc.1 refsW _ rfl).1⟩

/-- Claim C6 (code bug evidence): with an empty tag message and the two-line
commit message `"line1\nline2"`, `Message()` returns the whole commit
message, not its first line, because `strings.SplitN(msg, "\n", 1)` returns
the unsplit string; the non-empty tag message branch behaves as claimed. -/
theorem message_returns_whole_commit_message :
    Release.Message relTwoLineCommit = "line1\nline2" ∧
    "line1\nline2" ≠ "line1" ∧
    goSplitN "line1\nline2" "\n" 1 = ["line1\nline2"] ∧
    Release.Message relWithNote = "note" := by
  refine ⟨by decide, by decide, by decide, by decide⟩

/-- Claim C7, counterexample. A tag reference resolving to neither a commit
nor a tag object (e.g. a dangling reference or a tag pointing at a blob)
makes the load dereference the nil result of the error-discarding
`TagObject` call and abort the whole load (`none`), even though a later
reference is perfectly loadable on its own — so a single bad tag CAN abort
the load. -/
theorem load_aborts_on_unresolvable_ref :
    loadGitTags [{ name := "refs/tags/bad", commit := none, tagObj := none }, goodRefW]
      = none ∧
    loadGitTags [goodRefW] = some
      [{ Tag := "good", Hash := "c1", ReleaseMessage := "", CommitMessage := "m1",
         Author := sigW1, Committer := sigW1, Tagger := none }] :=
  ⟨rfl, rfl⟩

/-- Claim C7 (amended): when a tag reference resolves as an annotated tag
object whose target commit cannot be loaded, that tag is skipped and the
loading of all remaining tags proceeds as if the tag were absent — the load
result is unchanged; aborting occurs only in the separate
neither-commit-nor-tag case of the counterexample. -/
theorem load_skips_annotated_tag_without_commit (xs ys : List GoTagRef)
    (t : GoTagRef) (tg : GoTagObj)
    (ht : t.commit = none) (htg : t.tagObj = some tg) (htgc : tg.commit = none) :
    loadGitTags (xs ++ t :: ys) = loadGitTags (xs ++ ys) := by
  unfold loadGitTags
  rw [loadTagsAux_skip xs ys t tg ht htg htgc]

/-- Witness for the C7 amended theorem: an annotated tag with an unloadable
commit in an otherwise good list is simply skipped. -/
theorem load_skips_annotated_tag_without_commit_w :
    loadGitTags [goodRefW, badAnnRefW] = loadGitTags [goodRefW] :=
  load_skips_annotated_tag_without_commit [goodRefW] [] badAnnRefW
    { name := "ann", message := "msg", tagger := sigW1, commit := none } rfl rfl rfl

/-- Claim C8: `PushTagToRemote` pushes exactly the refspec
`refs/tags/<name>:refs/tags/<name>`; the `NoErrAlreadyUpToDate` outcome
yields a nil error with an informational message distinct from the plain
success message; any other push error is returned (non-nil) together with a
failure message; and a clean push yields a nil error with the success
message. -/
theorem push_refspec_and_outcomes (push : String → Option GoPushErr) (tag remote : String) :
    tagToRefspec tag = "refs/tags/" ++ tag ++ ":refs/tags/" ++ tag
    ∧ (push (tagToRefspec tag) = some GoPushErr.alreadyUpToDate →
        (PushTagToRemote push tag remote).2 = none ∧
        (PushTagToRemote push tag remote).1
          = "nothing pushed, tag " ++ tag ++ " already existed and was up to date in remote "
              ++ remote ∧
        (PushTagToRemote push tag remote).1 ≠ "pushed tag " ++ tag ++ " to remote " ++ remote)
    ∧ (∀ e, push (tagToRefspec tag) = some (GoPushErr.other e) →
        (PushTagToRemote push tag remote).2 = some (GoPushErr.other e) ∧
        (PushTagToRemote push tag remote).1
          = "failed to push tag " ++ tag ++ " to remote " ++ remote)
    ∧ (push (tagToRefspec tag) = none →
        (PushTagToRemote push tag remote).2 = none ∧
        (PushTagToRemote push tag remote).1 = "pushed tag " ++ tag ++ " to remote " ++ remote) := by
  refine ⟨rfl, ?_, ?_, ?_⟩
  · intro h
    unfold PushTagToRemote
    rw [h]
    refine ⟨rfl, rfl, ?_⟩
    intro heq
    have h3 := congrArg (fun s : String => s.data.head?) heq
    have h5 : (some 'n' : Option Char) = some 'p' := h3
    exact absurd h5 (by decide)
  · intro e h
    unfold PushTagToRemote
    rw [h]
    exact ⟨rfl, rfl⟩
  · intro h
    unfold PushTagToRemote
    rw [h]
    exact ⟨rfl, rfl⟩

/-- Witness for C8 at concrete push outcomes: up-to-date gives a nil error,
another error is propagated, and a clean push reports success. -/
theorem push_refspec_and_outcomes_w :
    (PushTagToRemote (fun _ => some GoPushErr.alreadyUpToDate) "v1" "origin").2 = none ∧
    (PushTagToRemote (fun _ => some (GoPushErr.other "auth")) "v1" "origin").2
      = some (GoPushErr.other "auth") ∧
    (PushTagToRemote (fun _ => none) "v1" "origin").1 = "pushed tag v1 to remote origin" :=
  ⟨((push_refspec_and_outcomes (fun _ => some GoPushErr.alreadyUpToDate) "v1" "origin").2.1
      rfl).1,
    ((push_refspec_and_outcomes (fun _ => some (GoPushErr.other "auth")) "v1" "origin").2.2.1
      "auth" rfl).1,
    ((push_refspec_and_outcomes (fun _ => none) "v1" "origin").2.2.2 rfl).2⟩

/-- Claim C9: `CreateTag` propagates a HEAD-resolution error; with an empty
message it creates a lightweight tag carrying no tagger options; with a
non-empty message it exits fatally (before any tag creation) when the user
name or email is missing, and otherwise creates an annotated tag carrying
the message and the identity signature; and an already-existing tag name is
an error in either creation branch. -/
theorem createTag_outcomes (head : Option String) (existing : List String) (now : Int)
    (name comment user email : String) :
    (head = none → CreateTag head existing now name comment user email
        = CreateTagResult.headErr)
    ∧ (∀ h, head = some h → comment = "" → name ∉ existing →
        CreateTag head existing now name comment user email = CreateTagResult.created h none)
    ∧ (∀ h, head = some h → comment ≠ "" → (user = "" ∨ email = "") →
        CreateTag head existing now name comment user email = CreateTagResult.fatalIdentity)
    ∧ (∀ h, head = some h → name ∈ existing → (comment = "" ∨ (user ≠ "" ∧ email ≠ "")) →
        CreateTag head existing now name comment user email = CreateTagResult.errTagExists)
    ∧ (∀ h, head = some h → comment ≠ "" → user ≠ "" → email ≠ "" → name ∉ existing →
        CreateTag head existing now name comment user email
          = CreateTagResult.created h (some
              { Message := comment,
                Tagger := { Name := user, Email := email, When := now } })) := by
  refine ⟨?_, ?_, ?_, ?_, ?_⟩
  · rintro rfl
    rfl
  · rintro h rfl hc hnm
    simp [CreateTag, repoCreateTag, hc, hnm]
  · rintro h rfl hc hue
    simp [CreateTag, hc, hue]
  · rintro h rfl hm hcase
    rcases hcase with hc | ⟨hu, he⟩
    · simp [CreateTag, repoCreateTag, hc, hm]
    · by_cases hc : comment = ""
      · simp [CreateTag, repoCreateTag, hc, hm]
      · simp [CreateTag, repoCreateTag, hc, hm, hu, he]
  · rintro h rfl hc hu he hnm
    simp [CreateTag, repoCreateTag, hc, hu, he, hnm]

/-- Witness for C9 at concrete inputs, one per branch: HEAD error, empty
message (lightweight tag, no tagger options), missing identity with a
message (fatal), duplicate tag name (error), and a full annotated creation. -/
theorem createTag_outcomes_w :
    CreateTag none [] 0 "v" "" "" "" = CreateTagResult.headErr ∧
    CreateTag (some "h") [] 0 "v" "" "" "" = CreateTagResult.created "h" none ∧
    CreateTag (some "h") [] 0 "v" "msg" "" "e" = CreateTagResult.fatalIdentity ∧
    CreateTag (some "h") ["v"] 0 "v" "" "u" "e" = CreateTagResult.errTagExists ∧
    CreateTag (some "h") [] 0 "v" "msg" "u" "e"
      = CreateTagResult.created "h" (some
          { Message := "msg", Tagger := { Name := "u", Email := "e", When := 0 } }) :=
  ⟨(createTag_outcomes none [] 0 "v" "" "" "").1 rfl,
    (createTag_outcomes (some "h") [] 0 "v" "" "" "").2.1 "h" rfl rfl (by decide),
    (createTag_outcomes (some "h") [] 0 "v" "msg" "" "e").2.2.1 "h" rfl (by decide)
      (Or.inl rfl),
    (createTag_outcomes (some "h") ["v"] 0 "v" "" "u" "e").2.2.2.1 "h" rfl (by decide)
      (Or.inl rfl),
    (createTag_outcomes (some "h") [] 0 "v" "msg" "u" "e").2.2.2.2 "h" rfl (by decide)
      (by decide) (by decide) (by decide)⟩

/-- Claim C10, counterexample. The flag-independence half holds, but "every
proposal contains an ordinal of at least 001" fails: with a same-month tag at
the `uint64` maximum the wrapped proposal is `2020.08.000-y`, whose ordinal
is 0. -/
theorem proposal_ordinal_zero_after_wrap :
    (mkMgr [mkTagOnly "2020.08.18446744073709551615-y"] true).GetProposedName "y" 2020 8
      = "2020.08.000-y" ∧
    ((latestCalVer [mkTagOnly "2020.08.18446744073709551615-y"] 2020 8).Increase).Release
      = 0 ∧
    ¬ 1 ≤ ((latestCalVer [mkTagOnly "2020.08.18446744073709551615-y"] 2020 8).Increase).Release := by
  refine ⟨by decide, by decide, by decide⟩

/-- Claim C10 (amended): the proposal is identical for every value of
`AlwaysIncludeNumber` (the flag is never consulted); the proposal ordinal is
at least 001 provided no same-month tag sits at the `uint64` saturation
bound; and every proposal has the shape
`<year>.<2-digit month>.<zero-padded ordinal of ≥ 3 digits>-<name>` — the
bare date prefix is never proposed. -/
theorem proposal_flag_independent_and_padded :
    (∀ (L : List Release) (name : String) (y m : Nat) (b1 b2 : Bool),
        (mkMgr L b1).GetProposedName name y m = (mkMgr L b2).GetProposedName name y m)
    ∧ (∀ (L : List Release) (y m : Nat), L.all (sameMonthSafe y m) = true →
        1 ≤ ((latestCalVer L y m).Increase).Release)
    ∧ (∀ (L : List Release) (name : String) (y m : Nat) (b : Bool),
        (mkMgr L b).GetProposedName name y m
          = Nat.repr y ++ "." ++ goPad 2 m ++ "."
              ++ goPad 3 ((latestCalVer L y m).Increase).Release ++ "-" ++ name
        ∧ 3 ≤ (goPad 3 ((latestCalVer L y m).Increase).Release).length) := by
  refine ⟨?_, ?_, ?_⟩
  · intro L name y m b1 b2
    rfl
  · intro L y m H
    have hFlt := latestRelease_lt_of_safe L y m H
    have hinc : (latestCalVer L y m).Increase.Release = (latestCalVer L y m).Release + 1 := by
      unfold calVerStandard.Increase
      exact Nat.mod_eq_of_lt (by omega)
    omega
  · intro L name y m b
    obtain ⟨hy, hm⟩ := latestFold_Year_Month L (newCalVerStandard y m 0)
    constructor
    · show ((latestCalVer L y m).Increase).FormatRelease name = _
      unfold calVerStandard.FormatRelease
      have hYI : ((latestCalVer L y m).Increase).Year = y := hy
      have hMI : ((latestCalVer L y m).Increase).Month = m := hm
      rw [hYI, hMI]
    · exact goPad_length 3 _

/-- Witness for the C10 amended theorem: with an empty index the proposals
for both flag values agree and the ordinal is at least 1. -/
theorem proposal_flag_independent_and_padded_w :
    (mkMgr [] true).GetProposedName "release" 2020 9
      = (mkMgr [] false).GetProposedName "release" 2020 9 ∧
    1 ≤ ((latestCalVer [] 2020 9).Increase).Release :=
  ⟨proposal_flag_independent_and_padded.1 [] "release" 2020 9 true false,
    proposal_flag_independent_and_padded.2.1 [] 2020 9 (by decide)⟩
